import Mathlib

/-!
Shallow embedding of the claim-relevant parts of the Festivemena/kraken
dispatch gateway (TypeScript), together with theorems settling the frozen
claims about it.

Embedded components:
* `src/services/nonce-manager.ts` — `NonceManager.getNextNonce`,
  `NonceManager.initializeNonceForKey`, `NonceManager.createAccessKey`,
  `NonceManager.refreshNonce`;
* `src/services/near-client.ts` (second document: the event-emitting
  `BatchProcessor`) — `addToQueue`, `getOptimalBatchSize`, `getBatchItems`;
* `src/api/validators.ts` — `NEAR_ACCOUNT_PATTERN`, `AMOUNT_PATTERN`,
  the `transferSchema` checks for `receiverId` and `amount`, and
  `customValidators.isValidNearAccountId`;
* `src/utils/metrics.ts` — `MetricsService.getCurrentTPS`.

JavaScript `Map` objects are modelled as insertion-ordered association
lists (`Map.set` replaces in place when the key is present, otherwise
appends).  JavaScript numbers are idealized as `ℚ` (the numeric literals
involved, `0.7`, `1.5`, `2`, are treated as the exact rationals they
denote); nonces, counters and timestamps are `Nat`/`Int`.
-/

namespace Kraken

/-- Lookup in a JS `Map` modelled as an association list (first match). -/
def mapLookup {β : Type} (k : String) : List (String × β) → Option β
  | [] => none
  | (k₂, v) :: rest => if k₂ = k then some v else mapLookup k rest

/-- `Map.set`: replace the value in place when the key is present,
otherwise append the new entry at the end (JS insertion order). -/
def mapSet {β : Type} (k : String) (v : β) : List (String × β) → List (String × β)
  | [] => [(k, v)]
  | (k₂, v₂) :: rest => if k₂ = k then (k, v) :: rest else (k₂, v₂) :: mapSet k v rest

theorem mapLookup_mapSet_self {β : Type} (k : String) (v : β) (m : List (String × β)) :
    mapLookup k (mapSet k v m) = some v := by
  induction m with
  | nil => simp [mapLookup, mapSet]
  | cons hd tl ih =>
    obtain ⟨k₂, v₂⟩ := hd
    by_cases h : k₂ = k
    · simp [mapLookup, mapSet, h]
    · simp [mapLookup, mapSet, h, ih]

theorem mapLookup_mapSet_ne {β : Type} {k k₂ : String} (h : k₂ ≠ k) (v : β)
    (m : List (String × β)) :
    mapLookup k₂ (mapSet k v m) = mapLookup k₂ m := by
  have hne : ¬ k = k₂ := fun hk => h hk.symm
  induction m with
  | nil => simp [mapLookup, mapSet, hne]
  | cons hd tl ih =>
    obtain ⟨k₃, v₃⟩ := hd
    by_cases hk : k₃ = k
    · subst hk
      simp [mapLookup, mapSet, hne]
    · simp [mapLookup, mapSet, hk, ih]

/-! ## Nonce manager (`src/services/nonce-manager.ts`)

The `KeyNonce` record and the `nonces : Map<string, KeyNonce>` field.  The
manager is constructed for a single `masterAccountId`, so the map is keyed
by the public-key string alone. -/

/-- The `KeyNonce` interface of `nonce-manager.ts`. -/
structure KeyNonce where
  publicKey : String
  nonce : Nat
  lastUsed : Nat
  lastUpdated : Nat
deriving Repr, DecidableEq

/-- The `nonces` map of `NonceManager`. -/
abbrev NonceMap := List (String × KeyNonce)

/-- `NonceManager.getNextNonce(publicKey)`: look the key up (`none`
models the thrown `No nonce found` error), return the stored nonce and
store its successor (`keyNonce.nonce++` post-increments), updating
`lastUsed` to `Date.now()` (the `now` argument). -/
def getNextNonce (now : Nat) (pk : String) (m : NonceMap) : Option (Nat × NonceMap) :=
  match mapLookup pk m with
  | none => none
  | some kn =>
      some (kn.nonce, mapSet pk { kn with nonce := kn.nonce + 1, lastUsed := now } m)

/-- A run of successive `getNextNonce` calls: each operation names the
public key asked for and the `Date.now()` at the call.  A call on an
uninitialized key throws (state unchanged, no nonce returned); a
successful call appends its `(publicKey, nonce)` output. -/
def nonceRun : NonceMap → List (String × Nat) → List (String × Nat) × NonceMap
  | m, [] => ([], m)
  | m, (pk, now) :: ops =>
      match getNextNonce now pk m with
      | none => nonceRun m ops
      | some (v, m₂) =>
          let r := nonceRun m₂ ops
          ((pk, v) :: r.1, r.2)

/-- The nonces a run handed out for one fixed public key, in order. -/
def outputsFor (pk : String) (outs : List (String × Nat)) : List Nat :=
  (outs.filter (fun p => p.1 = pk)).map Prod.snd

/-! ## Chain state and nonce initialization (C2, C10) -/

/-- What the chain's `view_access_key` query reports for one key:
its current on-chain nonce and whether it is a full-access key. -/
structure AccessKeyInfo where
  nonce : Nat
  fullAccess : Bool
deriving Repr, DecidableEq

/-- The chain's access keys of the master account, keyed by public key. -/
abbrev ChainState := List (String × AccessKeyInfo)

/-- The keystore `createAccessKey` constructs (nonce-manager.ts:82):
`new keyStores.InMemoryKeyStore()` — fresh and empty; no signing key is
ever `setKey`ed into it for any account. -/
def createAccessKeyStore : List (String × Unit) := []

/-- `NonceManager.createAccessKey(publicKey)`: connects with the freshly
created empty keystore, takes the master account, and calls
`account.addKey(publicKey)` — a full-access `AddKey`, per the code's own
comment.  Signing that transaction requires the master account's key
pair from the connection's keystore; the lookup in the empty store
fails, the signer throws ("no matching key pair"), and `createAccessKey`
re-throws (`none`).  Only the branch where the keystore held a key for
the master account — unreachable in this program — would register the
key full-access on-chain with some initial nonce `newKeyNonce`. -/
def createAccessKey (masterAccountId : String) (pk : String) (newKeyNonce : Nat)
    (chain : ChainState) : Option ChainState :=
  match mapLookup masterAccountId createAccessKeyStore with
  | none => none
  | some _ => some (mapSet pk { nonce := newKeyNonce, fullAccess := true } chain)

/-- `NonceManager.initializeNonceForKey(publicKey)`: query
`view_access_key`; on success store `chainNonce + 1` in the nonce map;
on `AccessKeyDoesNotExist` (the key is absent from the chain) call
`createAccessKey` and, if it returns, retry (the recursion bounded by
`fuel`); if `createAccessKey` throws, the error propagates and
initialization for the key fails (`none`). -/
def initializeNonceForKey (masterAccountId : String) (now : Nat) (pk : String)
    (newKeyNonce : Nat) :
    Nat → ChainState → NonceMap → Option (ChainState × NonceMap)
  | 0, chain, nonces =>
      match mapLookup pk chain with
      | some ak =>
          some (chain, mapSet pk ⟨pk, ak.nonce + 1, now, now⟩ nonces)
      | none => none
  | fuel + 1, chain, nonces =>
      match mapLookup pk chain with
      | some ak =>
          some (chain, mapSet pk ⟨pk, ak.nonce + 1, now, now⟩ nonces)
      | none =>
          match createAccessKey masterAccountId pk newKeyNonce chain with
          | none => none
          | some chain₂ =>
              initializeNonceForKey masterAccountId now pk newKeyNonce fuel chain₂ nonces

/-- On a chain that has the key, `initializeNonceForKey` stores
`chainNonce + 1`, whatever the fuel. -/
theorem initializeNonceForKey_of_lookup_some {pk : String} {chain : ChainState}
    {ak : AccessKeyInfo} (masterAccountId : String) (now newKeyNonce fuel : Nat)
    (nonces : NonceMap) (h : mapLookup pk chain = some ak) :
    initializeNonceForKey masterAccountId now pk newKeyNonce fuel chain nonces =
      some (chain, mapSet pk ⟨pk, ak.nonce + 1, now, now⟩ nonces) := by
  cases fuel <;> · rw [initializeNonceForKey, h]

/-- `NonceManager.refreshNonce(publicKey)` simply delegates to
`initializeNonceForKey`, overwriting the stored entry. -/
def refreshNonce (masterAccountId : String) (now : Nat) (pk : String)
    (newKeyNonce : Nat) (fuel : Nat) (chain : ChainState) (nonces : NonceMap) :
    Option (ChainState × NonceMap) :=
  initializeNonceForKey masterAccountId now pk newKeyNonce fuel chain nonces

/-! ## Lemmas about nonce runs -/

theorem nonceRun_cons_none {pk₂ : String} {now : Nat} {m : NonceMap}
    {ops : List (String × Nat)} (hg : mapLookup pk₂ m = none) :
    nonceRun m ((pk₂, now) :: ops) = nonceRun m ops := by
  simp [nonceRun, getNextNonce, hg]

theorem nonceRun_cons_some {pk₂ : String} {now : Nat} {m : NonceMap}
    {ops : List (String × Nat)} {kn₂ : KeyNonce} (hg : mapLookup pk₂ m = some kn₂) :
    nonceRun m ((pk₂, now) :: ops) =
      ((pk₂, kn₂.nonce) ::
          (nonceRun (mapSet pk₂ { kn₂ with nonce := kn₂.nonce + 1, lastUsed := now } m) ops).1,
        (nonceRun (mapSet pk₂ { kn₂ with nonce := kn₂.nonce + 1, lastUsed := now } m) ops).2) := by
  simp [nonceRun, getNextNonce, hg]

theorem outputsFor_cons (pk pk₂ : String) (v : Nat) (rest : List (String × Nat)) :
    outputsFor pk ((pk₂, v) :: rest) =
      if pk₂ = pk then v :: outputsFor pk rest else outputsFor pk rest := by
  by_cases h : pk₂ = pk <;> simp [outputsFor, List.filter_cons, h]

/-- Every nonce a run hands out for `pk` is at least any lower bound on the
stored counter for `pk` at the start of the run. -/
theorem nonceRun_le (ops : List (String × Nat)) :
    ∀ (m : NonceMap) (pk : String) (n : Nat),
      (∀ kn, mapLookup pk m = some kn → n ≤ kn.nonce) →
      ∀ x ∈ outputsFor pk (nonceRun m ops).1, n ≤ x := by
  induction ops with
  | nil =>
    intro m pk n _ x hx
    simp [nonceRun, outputsFor] at hx
  | cons op ops ih =>
    intro m pk n h x hx
    obtain ⟨pk₂, now⟩ := op
    cases hg : mapLookup pk₂ m with
    | none =>
      rw [nonceRun_cons_none hg] at hx
      exact ih m pk n h x hx
    | some kn₂ =>
      rw [nonceRun_cons_some hg, outputsFor_cons] at hx
      by_cases hp : pk₂ = pk
      · subst hp
        rw [if_pos rfl] at hx
        rcases List.mem_cons.mp hx with hx | hx
        · subst hx
          exact h kn₂ hg
        · refine ih _ pk₂ n ?_ x hx
          intro kn hkn
          rw [mapLookup_mapSet_self] at hkn
          cases hkn
          exact Nat.le_succ_of_le (h kn₂ hg)
      · rw [if_neg hp] at hx
        refine ih _ pk n ?_ x hx
        intro kn hkn
        rw [mapLookup_mapSet_ne (fun he => hp he.symm)] at hkn
        exact h kn hkn

/-- The nonces a run hands out for any fixed key are strictly increasing. -/
theorem nonceRun_chain (ops : List (String × Nat)) :
    ∀ (m : NonceMap) (pk : String),
      List.Chain' (· < ·) (outputsFor pk (nonceRun m ops).1) := by
  induction ops with
  | nil =>
    intro m pk
    simp [nonceRun, outputsFor]
  | cons op ops ih =>
    intro m pk
    obtain ⟨pk₂, now⟩ := op
    cases hg : mapLookup pk₂ m with
    | none =>
      rw [nonceRun_cons_none hg]
      exact ih m pk
    | some kn₂ =>
      rw [nonceRun_cons_some hg, outputsFor_cons]
      by_cases hp : pk₂ = pk
      · subst hp
        rw [if_pos rfl]
        refine List.chain'_cons'.mpr ⟨?_, ih _ pk₂⟩
        intro y hy
        have hmem := List.mem_of_mem_head? hy
        have hb := nonceRun_le ops
          (mapSet pk₂ { kn₂ with nonce := kn₂.nonce + 1, lastUsed := now } m) pk₂
          (kn₂.nonce + 1) ?_ y hmem
        · exact Nat.lt_of_succ_le hb
        · intro kn hkn
          rw [mapLookup_mapSet_self] at hkn
          cases hkn
          exact Nat.le_refl _
      · rw [if_neg hp]
        exact ih _ pk

/-- **C1.** For every public key initialized in the nonce allocator, the
sequence of nonces returned by successive `getNextNonce` calls in a run
(calls for other keys may interleave) is strictly increasing in the order
returned, hence contains no duplicate. -/
theorem getNextNonce_strictly_increasing (m : NonceMap) (ops : List (String × Nat))
    (pk : String) :
    List.Chain' (· < ·) (outputsFor pk (nonceRun m ops).1) ∧
      (outputsFor pk (nonceRun m ops).1).Nodup := by
  have hc := nonceRun_chain ops m pk
  refine ⟨hc, ?_⟩
  exact (List.chain'_iff_pairwise.mp hc).imp Nat.ne_of_lt

/-- **C2 counterexample.** With the local counter at 100 and the chain
reporting nonce 5, a refresh stores `5 + 1 = 6`, not
`max(currentLocal, chainNonce + 1) = 100`: the stored value decreases. -/
theorem refreshNonce_not_max_cex :
    ((refreshNonce "master.testnet" 7 "k" 0 1 [("k", ⟨5, true⟩)]
          [("k", ⟨"k", 100, 0, 0⟩)]).bind
        (fun r => (mapLookup "k" r.2).map KeyNonce.nonce)) = some 6 ∧
      (6 : Nat) < 100 ∧ ¬ (6 : Nat) = max 100 (5 + 1) := by
  refine ⟨by decide, by decide, by decide⟩

/-- **C2 (amended).** When the chain reports an access key for `pk`, a
scheduled refresh re-queries the chain and overwrites the stored
`nextNonce` with `chainNonce + 1` unconditionally — regardless of the
current local value, so not with `max(currentLocal, chainNonce + 1)`. -/
theorem refreshNonce_overwrites_with_chain_nonce (masterAccountId : String)
    (now : Nat) (pk : String) (newKeyNonce fuel : Nat) (chain : ChainState)
    (nonces : NonceMap) (ak : AccessKeyInfo) (h : mapLookup pk chain = some ak) :
    refreshNonce masterAccountId now pk newKeyNonce fuel chain nonces =
        some (chain, mapSet pk ⟨pk, ak.nonce + 1, now, now⟩ nonces) ∧
      ((refreshNonce masterAccountId now pk newKeyNonce fuel chain nonces).bind
          (fun r => (mapLookup pk r.2).map KeyNonce.nonce)) = some (ak.nonce + 1) := by
  have he : refreshNonce masterAccountId now pk newKeyNonce fuel chain nonces =
      some (chain, mapSet pk ⟨pk, ak.nonce + 1, now, now⟩ nonces) := by
    rw [refreshNonce,
      initializeNonceForKey_of_lookup_some masterAccountId now newKeyNonce fuel nonces h]
  refine ⟨he, ?_⟩
  rw [he]
  simp [mapLookup_mapSet_self]

/-- Witness for `refreshNonce_overwrites_with_chain_nonce` at a concrete
chain and nonce map. -/
theorem refreshNonce_overwrites_with_chain_nonce_witness :
    refreshNonce "master.testnet" 3 "k" 0 2 [("k", ⟨41, true⟩)]
          [("k", ⟨"k", 9, 0, 0⟩)] =
        some ([("k", ⟨41, true⟩)], [("k", ⟨"k", 42, 3, 3⟩)]) ∧
      ((refreshNonce "master.testnet" 3 "k" 0 2 [("k", ⟨41, true⟩)]
            [("k", ⟨"k", 9, 0, 0⟩)]).bind
          (fun r => (mapLookup "k" r.2).map KeyNonce.nonce)) = some (41 + 1) := by
  have h := refreshNonce_overwrites_with_chain_nonce "master.testnet" 3 "k" 0 2
    [("k", ⟨41, true⟩)] [("k", ⟨"k", 9, 0, 0⟩)] ⟨41, true⟩ (by decide)
  exact ⟨by rw [h.1]; decide, h.2⟩

/-- **C10.** The code contradicts its own log message ("Access key not
found …, creating a new one...") and comment ("Add full access key"):
when the chain has no access key for `pk` (`AccessKeyDoesNotExist`),
`createAccessKey` signs its `AddKey` transaction against the freshly
constructed *empty* keystore, finds no key pair for the master account,
and throws; the error propagates, so initialization for that key fails —
no key is registered on-chain and no retry succeeds. -/
theorem initializeNonceForKey_missing_key_fails (masterAccountId : String)
    (now : Nat) (pk : String) (newKeyNonce fuel : Nat) (chain : ChainState)
    (nonces : NonceMap) (h : mapLookup pk chain = none) :
    createAccessKey masterAccountId pk newKeyNonce chain = none ∧
      initializeNonceForKey masterAccountId now pk newKeyNonce fuel chain nonces =
        none := by
  have hc : createAccessKey masterAccountId pk newKeyNonce chain = none := rfl
  refine ⟨hc, ?_⟩
  cases fuel with
  | zero => rw [initializeNonceForKey, h]
  | succ n =>
      rw [initializeNonceForKey, h, hc]

/-- Witness for `initializeNonceForKey_missing_key_fails`: a chain with
no key at all. -/
theorem initializeNonceForKey_missing_key_fails_witness :
    createAccessKey "master.testnet" "pk" 0 [] = none ∧
      initializeNonceForKey "master.testnet" 5 "pk" 0 1 [] [] = none :=
  initializeNonceForKey_missing_key_fails "master.testnet" 5 "pk" 0 1 [] [] rfl

/-! ## Batch processor (`src/services/near-client.ts`, second document)

The event-emitting `BatchProcessor`: a `queue : Map<string, QueuedTransfer>`,
`addToQueue`, the adaptive `getOptimalBatchSize`, and the priority drain
`getBatchItems`. -/

/-- The `TransferRequest` interface of `src/models/transfer-request.ts`. -/
structure TransferRequest where
  receiverId : String
  amount : String
  memo : Option String
deriving Repr, DecidableEq

/-- The `QueuedTransfer` interface (near-client.ts document 2). -/
structure QueuedTransfer where
  id : String
  request : TransferRequest
  timestamp : Int
  priority : ℚ
  retryCount : Nat
deriving Repr, DecidableEq

/-- The processor's `queue : Map<string, QueuedTransfer>`. -/
abbrev TransferQueue := List (String × QueuedTransfer)

/-- `BatchProcessor.addToQueue(request, priority = 1)`: generate a UUID
(`id`), record `Date.now()` (`now`), insert unconditionally, return the id.
There is no capacity check and no failure path. -/
def addToQueue (id : String) (request : TransferRequest) (priority : ℚ)
    (now : Int) (queue : TransferQueue) : String × TransferQueue :=
  (id, mapSet id ⟨id, request, now, priority, 0⟩ queue)

theorem mapSet_length_of_lookup_none {β : Type} {k : String} {m : List (String × β)}
    (v : β) (h : mapLookup k m = none) :
    (mapSet k v m).length = m.length + 1 := by
  induction m with
  | nil => rfl
  | cons hd tl ih =>
    obtain ⟨k₂, v₂⟩ := hd
    by_cases hk : k₂ = k
    · rw [mapLookup, if_pos hk] at h
      exact absurd h (by simp)
    · rw [mapLookup, if_neg hk] at h
      simp [mapSet, hk, ih h]

/-- A one-element queue and a fresh request, concrete inputs used below. -/
def sampleQueue : TransferQueue :=
  [("a", ⟨"a", ⟨"bob.testnet", "1", none⟩, 0, 1, 0⟩)]

/-- A concrete transfer request used below. -/
def sampleRequest : TransferRequest := ⟨"alice.testnet", "1", none⟩

/-- **C3 counterexample.** A queue already holding 1 item (so at any cap
of 1) still accepts the next enqueue: the queue changes and grows to 2
items; no `QUEUE_FULL` failure exists. -/
theorem addToQueue_no_cap_cex :
    ((addToQueue "b" sampleRequest 1 0 sampleQueue).2).length = 2 ∧
      (addToQueue "b" sampleRequest 1 0 sampleQueue).2 ≠ sampleQueue := by
  refine ⟨by decide, by decide⟩

/-- **C3 (amended).** `addToQueue` enforces no cap at all: whatever the
queue size, an enqueue under a fresh UUID succeeds, returns the id, and
grows the queue by exactly one entry; the code has no `QUEUE_FULL` path. -/
theorem addToQueue_always_inserts (id : String) (request : TransferRequest)
    (priority : ℚ) (now : Int) (queue : TransferQueue)
    (h : mapLookup id queue = none) :
    (addToQueue id request priority now queue).1 = id ∧
      ((addToQueue id request priority now queue).2).length = queue.length + 1 ∧
      mapLookup id (addToQueue id request priority now queue).2 =
        some ⟨id, request, now, priority, 0⟩ := by
  refine ⟨rfl, ?_, ?_⟩
  · exact mapSet_length_of_lookup_none _ h
  · exact mapLookup_mapSet_self _ _ _

/-- Witness for `addToQueue_always_inserts` on a singleton queue. -/
theorem addToQueue_always_inserts_witness :
    (addToQueue "b" sampleRequest 1 0 sampleQueue).1 = "b" ∧
      ((addToQueue "b" sampleRequest 1 0 sampleQueue).2).length =
        sampleQueue.length + 1 ∧
      mapLookup "b" (addToQueue "b" sampleRequest 1 0 sampleQueue).2 =
        some ⟨"b", sampleRequest, 0, 1, 0⟩ :=
  addToQueue_always_inserts "b" sampleRequest 1 0 sampleQueue (by decide)

/-- `BatchProcessor.getOptimalBatchSize()`: the adaptive batch-size
computation, verbatim from the code.  `queueSize` is `this.queue.size`;
`recentProcessingTimes` holds the last processing durations; the literals
`2`, `3`, `0.7`, `1.5` are the exact rationals of the source. -/
def getOptimalBatchSize (adaptiveBatching : Bool) (baseBatchSize batchIntervalMs : ℚ)
    (queueSize : Nat) (recentProcessingTimes : List ℚ) : ℚ :=
  if !adaptiveBatching then baseBatchSize
  else if (queueSize : ℚ) > baseBatchSize * 3 then
    min (baseBatchSize * 2) (queueSize : ℚ)
  else if (queueSize : ℚ) < baseBatchSize / 2 then
    max 1 (min (baseBatchSize / 2) (queueSize : ℚ))
  else if 3 ≤ recentProcessingTimes.length then
    if recentProcessingTimes.sum / (recentProcessingTimes.length : ℚ) >
        batchIntervalMs * 2 then
      max 1 (⌊baseBatchSize * (7 / 10)⌋ : ℚ)
    else if recentProcessingTimes.sum / (recentProcessingTimes.length : ℚ) <
        batchIntervalMs / 2 then
      min (baseBatchSize * (3 / 2)) (queueSize : ℚ)
    else baseBatchSize
  else baseBatchSize

/-- The comparator of `getBatchItems` as a total preorder: the JS sort
`(a, b) => a.priority !== b.priority ? b.priority - a.priority
: a.timestamp - b.timestamp` places `a` no later than `b` exactly when -/
def batchLE (a b : QueuedTransfer) : Prop :=
  b.priority < a.priority ∨ (a.priority = b.priority ∧ a.timestamp ≤ b.timestamp)

instance : DecidableRel batchLE := fun a b => by
  unfold batchLE; infer_instance

instance : IsTotal QueuedTransfer batchLE where
  total a b := by
    unfold batchLE
    rcases lt_trichotomy a.priority b.priority with h | h | h
    · exact Or.inr (Or.inl h)
    · rcases le_total a.timestamp b.timestamp with ht | ht
      · exact Or.inl (Or.inr ⟨h, ht⟩)
      · exact Or.inr (Or.inr ⟨h.symm, ht⟩)
    · exact Or.inl (Or.inl h)

instance : IsTrans QueuedTransfer batchLE where
  trans a b c hab hbc := by
    unfold batchLE at hab hbc ⊢
    rcases hab with h₁ | ⟨h₁, t₁⟩ <;> rcases hbc with h₂ | ⟨h₂, t₂⟩
    · exact Or.inl (h₂.trans h₁)
    · exact Or.inl (h₂ ▸ h₁)
    · exact Or.inl (h₁ ▸ h₂)
    · exact Or.inr ⟨h₁.trans h₂, t₁.trans t₂⟩

/-- The sort in `getBatchItems`: priority descending, then enqueue
timestamp ascending (a stable sort w.r.t. the total preorder `batchLE`,
as ES2019 `Array.prototype.sort` guarantees). -/
def sortQueueItems (items : List QueuedTransfer) : List QueuedTransfer :=
  List.insertionSort batchLE items

/-- JS `Array.prototype.slice(0, end)` for the (possibly fractional,
always nonnegative here) adaptive batch size: the element count is the
integer part. -/
def jsSliceCount (x : ℚ) : Nat := (⌊x⌋).toNat

/-- `BatchProcessor.getBatchItems(batchSize)`: sort the queued transfers
by priority (higher first), ties by older timestamp, and slice off the
first `batchSize` of them. -/
def getBatchItems (batchSize : ℚ) (items : List QueuedTransfer) :
    List QueuedTransfer :=
  (sortQueueItems items).take (jsSliceCount batchSize)

/-! ## C4: the adaptive batch-size case analysis -/

/-- The batch-size case analysis exactly as the claim states it (spec
§4.5), for comparison with `getOptimalBatchSize`: note the claim has no
3-sample gate, no `max 1` on the slow branch, and uses `⌈1.5·base⌉`
rather than `min(1.5·base, |IQ|)` on the fast branch. -/
def claimOptimalBatchSize (base intervalMs : ℚ) (queueSize : Nat)
    (recentTimes : List ℚ) : ℚ :=
  if (queueSize : ℚ) > 3 * base then min (2 * base) (queueSize : ℚ)
  else if (queueSize : ℚ) < base / 2 then max 1 (min (base / 2) (queueSize : ℚ))
  else if recentTimes.sum / (recentTimes.length : ℚ) > 2 * intervalMs then
    (⌊(7 / 10) * base⌋ : ℚ)
  else if recentTimes.sum / (recentTimes.length : ℚ) < intervalMs / 2 then
    (⌈(3 / 2) * base⌉ : ℚ)
  else base

/-- **C4 counterexample.** With base 4, interval 100 ms, queue depth 4 and
three 1 ms samples (fast processing), the code returns
`min(1.5·4, 4) = 4` while the claim's case analysis gives `⌈1.5·4⌉ = 6`. -/
theorem getOptimalBatchSize_cex :
    getOptimalBatchSize true 4 100 4 [1, 1, 1] = 4 ∧
      claimOptimalBatchSize 4 100 4 [1, 1, 1] = 6 ∧
      getOptimalBatchSize true 4 100 4 [1, 1, 1] ≠
        claimOptimalBatchSize 4 100 4 [1, 1, 1] := by
  have h₁ : getOptimalBatchSize true 4 100 4 [1, 1, 1] = 4 := by
    norm_num [getOptimalBatchSize]
  have h₂ : claimOptimalBatchSize 4 100 4 [1, 1, 1] = 6 := by
    norm_num [claimOptimalBatchSize]
  refine ⟨h₁, h₂, ?_⟩
  rw [h₁, h₂]
  norm_num

/-- **C4 (amended).** With adaptive batching on, the chosen batch size
follows this case analysis in order: (1) if `|IQ| > 3·base` then
`B = min(2·base, |IQ|)`; (2) else if `|IQ| < base/2` then
`B = max(1, min(base/2, |IQ|))`; (3) else if at least 3 recent
processing-time samples exist and their average exceeds
`2·batchIntervalMs` then `B = max(1, ⌊0.7·base⌋)`; (4) else if at least 3
samples exist and the average is below `batchIntervalMs/2` then
`B = min(1.5·base, |IQ|)`; (5) otherwise — including whenever fewer than
3 samples exist — `B = base`. -/
theorem getOptimalBatchSize_cases (base intervalMs : ℚ) (qs : Nat) (ts : List ℚ) :
    ((qs : ℚ) > base * 3 →
        getOptimalBatchSize true base intervalMs qs ts = min (base * 2) (qs : ℚ)) ∧
      (¬ (qs : ℚ) > base * 3 → (qs : ℚ) < base / 2 →
        getOptimalBatchSize true base intervalMs qs ts =
          max 1 (min (base / 2) (qs : ℚ))) ∧
      (¬ (qs : ℚ) > base * 3 → ¬ (qs : ℚ) < base / 2 → 3 ≤ ts.length →
        ts.sum / (ts.length : ℚ) > intervalMs * 2 →
        getOptimalBatchSize true base intervalMs qs ts =
          max 1 (⌊base * (7 / 10)⌋ : ℚ)) ∧
      (¬ (qs : ℚ) > base * 3 → ¬ (qs : ℚ) < base / 2 → 3 ≤ ts.length →
        ¬ ts.sum / (ts.length : ℚ) > intervalMs * 2 →
        ts.sum / (ts.length : ℚ) < intervalMs / 2 →
        getOptimalBatchSize true base intervalMs qs ts =
          min (base * (3 / 2)) (qs : ℚ)) ∧
      (¬ (qs : ℚ) > base * 3 → ¬ (qs : ℚ) < base / 2 → ¬ 3 ≤ ts.length →
        getOptimalBatchSize true base intervalMs qs ts = base) ∧
      (¬ (qs : ℚ) > base * 3 → ¬ (qs : ℚ) < base / 2 → 3 ≤ ts.length →
        ¬ ts.sum / (ts.length : ℚ) > intervalMs * 2 →
        ¬ ts.sum / (ts.length : ℚ) < intervalMs / 2 →
        getOptimalBatchSize true base intervalMs qs ts = base) := by
  refine ⟨?_, ?_, ?_, ?_, ?_, ?_⟩
  all_goals
    intros
    simp only [getOptimalBatchSize, Bool.not_true, Bool.false_eq_true, if_false]
    split_ifs
    all_goals rfl

/-- Witness for `getOptimalBatchSize_cases`: queue depth 10, base 2
triggers the first branch. -/
theorem getOptimalBatchSize_cases_witness :
    getOptimalBatchSize true 2 300 10 [] = min (2 * 2) ((10 : Nat) : ℚ) :=
  (getOptimalBatchSize_cases 2 300 10 []).1 (by norm_num)

/-! ## C5: every batch is at most twice the base batch size -/

/-- Whatever branch the adaptive sizing takes, the computed size lies in
`[0, 2·base]` (for any base batch size of at least 1). -/
theorem getOptimalBatchSize_bounds (adaptive : Bool) (base intervalMs : ℚ)
    (qs : Nat) (ts : List ℚ) (hbase : 1 ≤ base) :
    0 ≤ getOptimalBatchSize adaptive base intervalMs qs ts ∧
      getOptimalBatchSize adaptive base intervalMs qs ts ≤ 2 * base := by
  have hq : (0 : ℚ) ≤ (qs : ℚ) := Nat.cast_nonneg qs
  have hfl : (⌊base * (7 / 10)⌋ : ℚ) ≤ base * (7 / 10) := Int.floor_le _
  constructor
  · unfold getOptimalBatchSize
    split_ifs
    · linarith
    · exact le_min (by linarith) hq
    · exact le_trans (by norm_num) (le_max_left 1 _)
    · exact le_trans (by norm_num) (le_max_left 1 _)
    · exact le_min (by linarith) hq
    · linarith
    · linarith
  · unfold getOptimalBatchSize
    split_ifs
    · linarith
    · exact (min_le_left _ _).trans (by linarith)
    · exact max_le (by linarith) ((min_le_left _ _).trans (by linarith))
    · exact max_le (by linarith) (hfl.trans (by linarith))
    · exact (min_le_left _ _).trans (by linarith)
    · linarith
    · linarith

/-- **C5.** For every batch the collector produces — any queue contents,
any adaptive branch — the number of drained transfers is at most
`2 · batchSize`. -/
theorem batch_size_at_most_twice_base (adaptive : Bool) (base intervalMs : ℚ)
    (ts : List ℚ) (items : List QueuedTransfer) (hbase : 1 ≤ base) :
    ((getBatchItems (getOptimalBatchSize adaptive base intervalMs items.length ts)
        items).length : ℚ) ≤ 2 * base := by
  obtain ⟨h0, h2⟩ :=
    getOptimalBatchSize_bounds adaptive base intervalMs items.length ts hbase
  set B := getOptimalBatchSize adaptive base intervalMs items.length ts with hB
  have hlen : (getBatchItems B items).length ≤ jsSliceCount B := by
    rw [getBatchItems]
    exact (List.length_take _ _).le.trans (min_le_left _ _)
  have hcast : ((jsSliceCount B : ℕ) : ℚ) ≤ B := by
    rw [jsSliceCount]
    have hfl0 : 0 ≤ ⌊B⌋ := Int.le_floor.mpr (by exact_mod_cast h0)
    have : ((⌊B⌋.toNat : ℤ) : ℚ) = ((⌊B⌋ : ℤ) : ℚ) := by
      rw [Int.toNat_of_nonneg hfl0]
    calc ((⌊B⌋.toNat : ℕ) : ℚ) = ((⌊B⌋.toNat : ℤ) : ℚ) := by push_cast; ring
      _ = ((⌊B⌋ : ℤ) : ℚ) := this
      _ ≤ B := Int.floor_le B
  calc ((getBatchItems B items).length : ℚ) ≤ (jsSliceCount B : ℚ) := by
        exact_mod_cast hlen
    _ ≤ B := hcast
    _ ≤ 2 * base := h2

/-- Witness for `batch_size_at_most_twice_base` at base 1 and an empty
queue. -/
theorem batch_size_at_most_twice_base_witness :
    ((getBatchItems (getOptimalBatchSize true 1 300 (List.length ([] : List QueuedTransfer)) [])
        ([] : List QueuedTransfer)).length : ℚ) ≤ 2 * 1 :=
  batch_size_at_most_twice_base true 1 300 [] [] (by norm_num)

/-! ## C6: the drain takes the highest-priority items -/

/-- **C6.** A drain of up to `n` items (here `n = jsSliceCount batchSize`)
splits the queued transfers into the drained batch and the rest such that
(i) together they are a permutation of the queue, (ii) the batch holds
`min n |queue|` items, and (iii) every drained item beats every remaining
item: strictly higher priority, or equal priority and an enqueue
timestamp that is no later. -/
theorem getBatchItems_takes_highest_priority (batchSize : ℚ)
    (items : List QueuedTransfer) :
    (getBatchItems batchSize items ++
        (sortQueueItems items).drop (jsSliceCount batchSize)).Perm items ∧
      (getBatchItems batchSize items).length =
        min (jsSliceCount batchSize) items.length ∧
      ∀ x ∈ getBatchItems batchSize items,
        ∀ y ∈ (sortQueueItems items).drop (jsSliceCount batchSize),
          y.priority < x.priority ∨
            (x.priority = y.priority ∧ x.timestamp ≤ y.timestamp) := by
  refine ⟨?_, ?_, ?_⟩
  · rw [getBatchItems, List.take_append_drop]
    exact List.perm_insertionSort batchLE items
  · rw [getBatchItems, List.length_take, sortQueueItems, List.length_insertionSort]
  · have hs : List.Pairwise batchLE (sortQueueItems items) :=
      List.sorted_insertionSort batchLE items
    rw [← List.take_append_drop (jsSliceCount batchSize) (sortQueueItems items)]
      at hs
    have h := (List.pairwise_append.mp hs).2.2
    intro x hx y hy
    exact h x hx y hy

/-- Witness for `getBatchItems_takes_highest_priority`: a two-element
queue drained with batch size 1 keeps the higher-priority item. -/
theorem getBatchItems_takes_highest_priority_witness :
    (getBatchItems 1 [⟨"a", sampleRequest, 5, 1, 0⟩, ⟨"b", sampleRequest, 3, 2, 0⟩] ++
        (sortQueueItems [⟨"a", sampleRequest, 5, 1, 0⟩, ⟨"b", sampleRequest, 3, 2, 0⟩]).drop
          (jsSliceCount 1)).Perm
        [⟨"a", sampleRequest, 5, 1, 0⟩, ⟨"b", sampleRequest, 3, 2, 0⟩] ∧
      (getBatchItems 1
          [⟨"a", sampleRequest, 5, 1, 0⟩, ⟨"b", sampleRequest, 3, 2, 0⟩]).length =
        min (jsSliceCount 1)
          [(⟨"a", sampleRequest, 5, 1, 0⟩ : QueuedTransfer),
            ⟨"b", sampleRequest, 3, 2, 0⟩].length ∧
      ∀ x ∈ getBatchItems 1 [⟨"a", sampleRequest, 5, 1, 0⟩, ⟨"b", sampleRequest, 3, 2, 0⟩],
        ∀ y ∈ (sortQueueItems
            [⟨"a", sampleRequest, 5, 1, 0⟩, ⟨"b", sampleRequest, 3, 2, 0⟩]).drop
              (jsSliceCount 1),
          y.priority < x.priority ∨
            (x.priority = y.priority ∧ x.timestamp ≤ y.timestamp) :=
  getBatchItems_takes_highest_priority 1
    [⟨"a", sampleRequest, 5, 1, 0⟩, ⟨"b", sampleRequest, 3, 2, 0⟩]

/-! ## Request validators (`src/api/validators.ts`)

Strings are handled through their character lists (`String.data`); the
regexes are small enough to implement directly. -/

/-- The character class `[a-z0-9_\-]` of `NEAR_ACCOUNT_PATTERN`. -/
def isNearChar (c : Char) : Bool :=
  (('a' ≤ c) && (c ≤ 'z')) || (('0' ≤ c) && (c ≤ '9')) || c == '_' || c == '-'

/-- One alternative of `NEAR_ACCOUNT_PATTERN`:
`^[a-z0-9_\-]+\.suffix$` for the fixed suffix `suf` (which starts with the
dot).  Because the suffix is literal and anchored and the class excludes
the dot, the split point is forced. -/
def matchesDotSuffix (suf l : List Char) : Bool :=
  suf.isSuffixOf l &&
    (!(l.take (l.length - suf.length)).isEmpty &&
      (l.take (l.length - suf.length)).all isNearChar)

/-- The characters of `.testnet`. -/
def testnetSuffix : List Char := ['.', 't', 'e', 's', 't', 'n', 'e', 't']

/-- The characters of `.near`. -/
def nearSuffix : List Char := ['.', 'n', 'e', 'a', 'r']

/-- `NEAR_ACCOUNT_PATTERN.test`:
`/^[a-z0-9_\-]+\.(testnet|near)$|^[a-z0-9_\-]{2,64}$/`. -/
def nearAccountPattern (l : List Char) : Bool :=
  (matchesDotSuffix testnetSuffix l || matchesDotSuffix nearSuffix l) ||
    (decide (2 ≤ l.length) && decide (l.length ≤ 64) && l.all isNearChar)

/-- `transferSchema.receiverId`:
`Joi.string().required().pattern(NEAR_ACCOUNT_PATTERN).min(2).max(64)`. -/
def validReceiverIdSchema (s : String) : Bool :=
  nearAccountPattern s.data &&
    decide (2 ≤ s.data.length) && decide (s.data.length ≤ 64)

/-- Two consecutive dots somewhere in the list (`includes('..')`). -/
def hasDoubleDot : List Char → Bool
  | [] => false
  | [_] => false
  | c₁ :: c₂ :: rest => (c₁ == '.' && c₂ == '.') || hasDoubleDot (c₂ :: rest)

/-- `customValidators.isValidNearAccountId` (second document,
lines 453–472): nonempty, the pattern, no `..`, and no leading or
trailing dot. -/
def isValidNearAccountId (s : String) : Bool :=
  !s.data.isEmpty && nearAccountPattern s.data &&
    !hasDoubleDot s.data &&
    !(s.data.head? == some '.') && !(s.data.getLast? == some '.')

/-- The full receiverId validation the middleware applies: the Joi schema
check and then the custom validator; `false` is surfaced as an HTTP 400
`VALIDATION` error. -/
def acceptReceiverId (s : String) : Bool :=
  validReceiverIdSchema s && isValidNearAccountId s

/-- The chain's account-id grammar as the claim states it: lowercase
alphanumerics, underscore, hyphen and dots; 2–64 characters; segments
separated by dots with no leading, trailing or consecutive dots. -/
def claimAccountGrammar (s : String) : Bool :=
  decide (2 ≤ s.data.length) && decide (s.data.length ≤ 64) &&
    s.data.all (fun c => isNearChar c || c == '.') &&
    !(s.data.head? == some '.') && !(s.data.getLast? == some '.') &&
    !hasDoubleDot s.data

/-- **C7 counterexample.** `"a.b.testnet"` is in the chain's account-id
grammar, but the validator rejects it: the regex only accepts a single
dot-free label before `.testnet`/`.near` (or a dot-free 2–64 char
string), so acceptance is not equivalent to the grammar. -/
theorem receiverId_grammar_cex :
    claimAccountGrammar "a.b.testnet" = true ∧
      acceptReceiverId "a.b.testnet" = false := by
  refine ⟨by decide, by decide⟩

/-- If the fixed suffix consists of class-or-dot characters, any string
matching `^[a-z0-9_\-]+\.suffix$` consists of class-or-dot characters. -/
theorem matchesDotSuffix_chars {suf l : List Char}
    (hsuf : suf.all (fun c => isNearChar c || c == '.') = true)
    (h : matchesDotSuffix suf l = true) :
    l.all (fun c => isNearChar c || c == '.') = true := by
  unfold matchesDotSuffix at h
  simp only [Bool.and_eq_true] at h
  obtain ⟨h₁, _, h₃⟩ := h
  obtain ⟨p, hp⟩ := List.isSuffixOf_iff_suffix.mp h₁
  subst hp
  have hlen : (p ++ suf).length - suf.length = p.length := by
    simp [List.length_append]
  rw [hlen, List.take_left] at h₃
  rw [List.all_append, Bool.and_eq_true]
  refine ⟨?_, hsuf⟩
  rw [List.all_eq_true] at h₃ ⊢
  intro c hc
  simp [h₃ c hc]

/-- Any string accepted by `NEAR_ACCOUNT_PATTERN` consists of characters
from `[a-z0-9_\-.]`. -/
theorem nearAccountPattern_chars {l : List Char} (h : nearAccountPattern l = true) :
    l.all (fun c => isNearChar c || c == '.') = true := by
  unfold nearAccountPattern at h
  simp only [Bool.or_eq_true, Bool.and_eq_true] at h
  rcases h with (h | h) | ⟨⟨_, _⟩, h⟩
  · exact matchesDotSuffix_chars (by decide) h
  · exact matchesDotSuffix_chars (by decide) h
  · rw [List.all_eq_true] at h ⊢
    intro c hc
    simp [h c hc]

/-- **C7 (amended).** Receiver validation is sound for the chain's
account-id grammar but strictly narrower: every accepted id is 2–64
characters over `[a-z0-9_\-.]` with no leading, trailing or consecutive
dots, yet only dot-free names and a single dot-free label followed by
`.testnet` or `.near` are accepted.  In particular both `".foo.near"`
and the grammar-valid `"a.b.testnet"` are rejected with VALIDATION. -/
theorem acceptReceiverId_sound_but_narrower :
    (∀ s : String, acceptReceiverId s = true → claimAccountGrammar s = true) ∧
      acceptReceiverId ".foo.near" = false ∧
      acceptReceiverId "a.b.testnet" = false := by
  refine ⟨?_, by decide, by decide⟩
  intro s h
  unfold acceptReceiverId validReceiverIdSchema isValidNearAccountId at h
  simp only [Bool.and_eq_true, decide_eq_true_eq] at h
  obtain ⟨⟨⟨hpat, h2⟩, h64⟩, ⟨⟨⟨_, _⟩, hdd⟩, hhead⟩, hlast⟩ := h
  unfold claimAccountGrammar
  simp only [Bool.and_eq_true, decide_eq_true_eq]
  exact ⟨⟨⟨⟨⟨h2, h64⟩, nearAccountPattern_chars hpat⟩, hhead⟩, hlast⟩, hdd⟩

/-- Witness for the soundness half of `acceptReceiverId_sound_but_narrower`
at the accepted id `"alice.testnet"`. -/
theorem acceptReceiverId_sound_witness :
    claimAccountGrammar "alice.testnet" = true :=
  acceptReceiverId_sound_but_narrower.1 "alice.testnet" (by decide)

/-! ## C8: amount validation -/

/-- The numeric value of a digit string (most significant first). -/
def digitsVal (l : List Char) : Nat :=
  l.foldl (fun a c => a * 10 + (c.toNat - 48)) 0

/-- The optional fraction group `(\.[0-9]+)?` of `AMOUNT_PATTERN`:
returns the fraction digits and the rest of the input. -/
def parseFrac : List Char → Option (List Char × List Char)
  | '.' :: r =>
      if (r.takeWhile Char.isDigit).isEmpty then none
      else some (r.takeWhile Char.isDigit, r.dropWhile Char.isDigit)
  | r => some ([], r)

/-- The optional exponent group `([eE][+-]?[0-9]+)?$` of `AMOUNT_PATTERN`:
the exponent value, or `none` if the tail is not exactly that group. -/
def parseExpPart : List Char → Option Int
  | [] => some 0
  | c :: r =>
      if c == 'e' || c == 'E' then
        let sr : Int × List Char :=
          match r with
          | '+' :: rr => (1, rr)
          | '-' :: rr => (-1, rr)
          | _ => (1, r)
        if (sr.2.takeWhile Char.isDigit).isEmpty then none
        else if (sr.2.dropWhile Char.isDigit).isEmpty then
          some (sr.1 * (digitsVal (sr.2.takeWhile Char.isDigit) : Int))
        else none
      else none

/-- `AMOUNT_PATTERN` (`^[0-9]+(\.[0-9]+)?([eE][+-]?[0-9]+)?$`) together
with the idealized exact value `parseFloat` computes on a matching
string; `none` when the pattern does not match. -/
def parseAmount (l : List Char) : Option ℚ :=
  if (l.takeWhile Char.isDigit).isEmpty then none
  else
    match parseFrac (l.dropWhile Char.isDigit) with
    | none => none
    | some (fp, r₂) =>
        match parseExpPart r₂ with
        | none => none
        | some e =>
            some (((digitsVal (l.takeWhile Char.isDigit) : ℚ) +
                (digitsVal fp : ℚ) / (10 : ℚ) ^ fp.length) * (10 : ℚ) ^ e)

/-- `transferSchema.amount` (first document):
`Joi.string().required().pattern(AMOUNT_PATTERN)` plus the custom check
rejecting `numValue <= 0` and `numValue > 1e12`. -/
def acceptAmount (s : String) : Bool :=
  match parseAmount s.data with
  | none => false
  | some q => decide (0 < q) && decide (q ≤ 10 ^ 12)

/-- `transferSchema.amount` (second document): additionally rejects more
than 24 decimal places (`value.split('.')[1].length > 24`). -/
def acceptAmountChecked (s : String) : Bool :=
  acceptAmount s &&
    decide (((s.data.dropWhile (fun c => !(c == '.'))).drop 1).length ≤ 24)

theorem acceptAmount_of_parse {s : String} {q : ℚ}
    (h : parseAmount s.data = some q) :
    acceptAmount s = (decide (0 < q) && decide (q ≤ 10 ^ 12)) := by
  unfold acceptAmount
  rw [h]

theorem parseAmount_zero : parseAmount "0".data = some 0 := by
  have h : parseAmount "0".data =
      some (((digitsVal ['0'] : ℚ) + (digitsVal ([] : List Char) : ℚ) /
          (10 : ℚ) ^ (0 : ℕ)) * (10 : ℚ) ^ (0 : ℤ)) := rfl
  have h₁ : digitsVal ['0'] = 0 := rfl
  have h₂ : digitsVal ([] : List Char) = 0 := rfl
  rw [h, h₁, h₂]
  norm_num

theorem parseAmount_ten_exp_13 : parseAmount "1e13".data = some (10 ^ 13) := by
  have h : parseAmount "1e13".data =
      some (((digitsVal ['1'] : ℚ) + (digitsVal ([] : List Char) : ℚ) /
          (10 : ℚ) ^ (0 : ℕ)) *
        (10 : ℚ) ^ ((1 : ℤ) * (digitsVal ['1', '3'] : Int))) := rfl
  have h₁ : digitsVal ['1'] = 1 := rfl
  have h₂ : digitsVal ([] : List Char) = 0 := rfl
  have h₃ : digitsVal ['1', '3'] = 13 := rfl
  rw [h, h₁, h₂, h₃]
  norm_num

/-- **C8.** Transfer validation rejects with a VALIDATION error every
amount whose numeric value is not strictly positive or exceeds `10¹²`
(in both schema versions; strings that do not even match
`AMOUNT_PATTERN` are likewise rejected); in particular `"0"` and
`"1e13"` are rejected. -/
theorem acceptAmount_rejects_out_of_range :
    (∀ (s : String) (q : ℚ), parseAmount s.data = some q →
        (q ≤ 0 ∨ 10 ^ 12 < q) →
        acceptAmount s = false ∧ acceptAmountChecked s = false) ∧
      (∀ s : String, parseAmount s.data = none →
        acceptAmount s = false ∧ acceptAmountChecked s = false) ∧
      acceptAmount "0" = false ∧ acceptAmount "1e13" = false := by
  have hmain : ∀ (s : String) (q : ℚ), parseAmount s.data = some q →
      (q ≤ 0 ∨ 10 ^ 12 < q) →
      acceptAmount s = false ∧ acceptAmountChecked s = false := by
    intro s q h hbad
    have ha : acceptAmount s = false := by
      rw [acceptAmount_of_parse h]
      rcases hbad with hb | hb
      · simp [not_lt.mpr hb]
      · simp [not_le.mpr hb]
    refine ⟨ha, ?_⟩
    unfold acceptAmountChecked
    rw [ha]
    rfl
  have hnone : ∀ s : String, parseAmount s.data = none →
      acceptAmount s = false ∧ acceptAmountChecked s = false := by
    intro s h
    have ha : acceptAmount s = false := by
      unfold acceptAmount
      rw [h]
    refine ⟨ha, ?_⟩
    unfold acceptAmountChecked
    rw [ha]
    rfl
  refine ⟨hmain, hnone, ?_, ?_⟩
  · exact (hmain "0" 0 parseAmount_zero (Or.inl le_rfl)).1
  · exact (hmain "1e13" (10 ^ 13) parseAmount_ten_exp_13 (Or.inr (by norm_num))).1

/-- Witness for `acceptAmount_rejects_out_of_range` at the amounts `"0"`
(not positive) and `"2e24"` (no pattern mismatch needed: here a
pattern-failing string, `"-1"`, exercises the second implication). -/
theorem acceptAmount_rejects_out_of_range_witness :
    (acceptAmount "0" = false ∧ acceptAmountChecked "0" = false) ∧
      (acceptAmount "-1" = false ∧ acceptAmountChecked "-1" = false) :=
  ⟨acceptAmount_rejects_out_of_range.1 "0" 0 parseAmount_zero (Or.inl le_rfl),
    acceptAmount_rejects_out_of_range.2.1 "-1" rfl⟩

/-! ## Metrics (`src/utils/metrics.ts`) -/

/-- The `PerformanceWindow` interface of `metrics.ts`: a one-second
bucket. -/
structure PerformanceWindow where
  windowStart : Int
  windowEnd : Int
  transfers : Nat
  successful : Nat
  failed : Nat
deriving Repr, DecidableEq

/-- `MetricsService.getCurrentTPS()`: keep the performance windows whose
`windowEnd` exceeds `now - 5000`; return 0 when none remain, otherwise
the sum of their `successful` counts divided by the number of windows
kept (not by 5). -/
def getCurrentTPS (now : Int) (ws : List PerformanceWindow) : ℚ :=
  if (ws.filter (fun w => decide (now - 5000 < w.windowEnd))).isEmpty then 0
  else
    (((ws.filter (fun w => decide (now - 5000 < w.windowEnd))).map
        PerformanceWindow.successful).sum : ℚ) /
      ((ws.filter (fun w => decide (now - 5000 < w.windowEnd))).length : ℚ)

/-- Six one-second buckets whose ends all lie within the last 5 s of
`now = 0` (the bucket boundaries are offset 500 ms from `now`, as happens
whenever a bucket was created by `updateCurrentWindow` mid-second). -/
def cexWindows : List PerformanceWindow :=
  [⟨-5500, -4500, 0, 0, 0⟩, ⟨-4500, -3500, 0, 0, 0⟩, ⟨-3500, -2500, 0, 0, 0⟩,
    ⟨-2500, -1500, 0, 0, 0⟩, ⟨-1500, -500, 0, 0, 0⟩, ⟨-500, 500, 6, 6, 0⟩]

/-- **C9 counterexample.** With the six buckets of `cexWindows` at
`now = 0`, all six pass the 5-second filter, so the code returns
`6 / 6 = 1`, while the claim's value — successful summed over the 5 most
recent buckets, divided by 5 — is `6 / 5`. -/
theorem getCurrentTPS_not_five_bucket_average_cex :
    getCurrentTPS 0 cexWindows = 1 ∧
      (((cexWindows.reverse.take 5).map PerformanceWindow.successful).sum : ℚ) / 5 =
        6 / 5 ∧
      getCurrentTPS 0 cexWindows ≠
        (((cexWindows.reverse.take 5).map PerformanceWindow.successful).sum : ℚ) / 5 := by
  have h₁ : getCurrentTPS 0 cexWindows = ((6 : ℕ) : ℚ) / ((6 : ℕ) : ℚ) := rfl
  have h₂ : ((cexWindows.reverse.take 5).map PerformanceWindow.successful).sum = 6 := rfl
  refine ⟨by rw [h₁]; norm_num, by rw [h₂]; norm_num, ?_⟩
  rw [h₁, h₂]
  norm_num

/-- **C9 (amended).** `currentTPS` is the sum of `successful` over the
buckets whose end time lies within the last 5 seconds, divided by the
*number of such buckets* (0 when there are none); only when exactly 5
buckets qualify does this equal the claim's "sum over the 5 most recent
buckets divided by 5". -/
theorem getCurrentTPS_recent_average (now : Int)
    (older recent : List PerformanceWindow)
    (hold : ∀ w ∈ older, w.windowEnd ≤ now - 5000)
    (hrec : ∀ w ∈ recent, now - 5000 < w.windowEnd)
    (hne : recent ≠ []) :
    getCurrentTPS now (older ++ recent) =
        ((recent.map PerformanceWindow.successful).sum : ℚ) /
          (recent.length : ℚ) ∧
      (recent.length = 5 →
        getCurrentTPS now (older ++ recent) =
          ((recent.map PerformanceWindow.successful).sum : ℚ) / 5) := by
  have hf : (older ++ recent).filter (fun w => decide (now - 5000 < w.windowEnd)) =
      recent := by
    rw [List.filter_append]
    rw [List.filter_eq_nil_iff.mpr (by
      intro w hw
      simp [not_lt.mpr (hold w hw)])]
    rw [List.filter_eq_self.mpr (by
      intro w hw
      simp [hrec w hw])]
    rfl
  have hmain : getCurrentTPS now (older ++ recent) =
      ((recent.map PerformanceWindow.successful).sum : ℚ) / (recent.length : ℚ) := by
    unfold getCurrentTPS
    rw [hf, if_neg]
    simp [List.isEmpty_iff, hne]
  refine ⟨hmain, fun h5 => ?_⟩
  rw [hmain, h5]
  norm_num

/-- Five recent one-second buckets (ends within 5 s of `now = 0`). -/
def recentFive : List PerformanceWindow :=
  [⟨-5000, -4000, 0, 1, 0⟩, ⟨-4000, -3000, 0, 2, 0⟩, ⟨-3000, -2000, 0, 3, 0⟩,
    ⟨-2000, -1000, 0, 4, 0⟩, ⟨-1000, 0, 0, 5, 0⟩]

/-- One stale bucket (end exactly 5 s before `now = 0`). -/
def staleOne : List PerformanceWindow := [⟨-6000, -5000, 0, 9, 0⟩]

/-- Witness for `getCurrentTPS_recent_average`: one stale bucket plus
five recent buckets at `now = 0`. -/
theorem getCurrentTPS_recent_average_witness :
    getCurrentTPS 0 (staleOne ++ recentFive) =
        ((recentFive.map PerformanceWindow.successful).sum : ℚ) /
          (recentFive.length : ℚ) ∧
      (recentFive.length = 5 →
        getCurrentTPS 0 (staleOne ++ recentFive) =
          ((recentFive.map PerformanceWindow.successful).sum : ℚ) / 5) :=
  getCurrentTPS_recent_average 0 staleOne recentFive
    (by decide) (by decide) (by decide)

end Kraken
